import Mathlib

/-!
Verification of the sequence retrieval and structure-annotation engine of
the cryoDL repository (`src/build_fasta.py`, class `FastaBuilder`).

The Python code is shallowly embedded: each method becomes a Lean
function over explicit inputs; file contents are passed as lists of
lines; the network is an explicit oracle; the retry loop is a function
producing an event trace.  Python dictionaries (which preserve insertion
order) are modelled as association lists with insertion-order semantics.
-/

set_option maxRecDepth 4096

/-! ## Python string primitives, modelled over `List Char` -/

/-- Drop leading whitespace characters (first half of Python `str.strip()`). -/
def dropLeadingWs : List Char → List Char
  | [] => []
  | c :: cs => if c.isWhitespace then dropLeadingWs cs else c :: cs

/-- Python `str.strip()`: remove leading and trailing whitespace. -/
def pyStrip (s : String) : String :=
  String.mk ((dropLeadingWs (dropLeadingWs s.data.reverse).reverse))

/-- Python `str.startswith(pre)`. -/
def pyStartsWith (s pre : String) : Bool :=
  pre.data.isPrefixOf s.data

/-- Split a character list at every occurrence of `'.'`, keeping empty pieces:
Python `str.split('.')`. -/
def pySplitDot : List Char → List (List Char)
  | [] => [[]]
  | c :: cs =>
    match pySplitDot cs with
    | [] => [[]]
    | piece :: rest => if c = '.' then [] :: piece :: rest else (c :: piece) :: rest

/-- Python `line.split('.')[1]` for the lines of a CIF tag (they always
contain a dot, so index 1 exists; out of range defaults to `""`). -/
def splitDotField1 (s : String) : String :=
  String.mk ((pySplitDot s.data).getD 1 [])

/-- Split a character list at every character satisfying `p`, keeping empty
pieces. -/
def splitOnPred (p : Char → Bool) : List Char → List (List Char)
  | [] => [[]]
  | c :: cs =>
    match splitOnPred p cs with
    | [] => [[]]
    | piece :: rest => if p c then [] :: piece :: rest else (c :: piece) :: rest

/-- Python `str.split()` with no argument: split on whitespace runs and drop
empty fields. -/
def pySplitWs (s : String) : List String :=
  ((splitOnPred Char.isWhitespace s.data).filter (fun l => l ≠ [])).map String.mk

/-- Python `line[1:]` on a string (character slicing). -/
def strDrop1 (s : String) : String := String.mk (s.data.drop 1)

/-- Python truthiness of an `Optional[str]`: `None` and `""` are falsy. -/
def optTruthy : Option String → Bool
  | Option.none => false
  | Option.some s => !s.isEmpty

/-- Python `a or b` for `a : Optional[str]`, `b : str`. -/
def pyOrStr (a : Option String) (b : String) : String :=
  match a with
  | Option.none => b
  | Option.some s => if s = "" then b else s

/-- Python `str.isalnum()`: non-empty and every character alphanumeric
(the embedding treats alphanumeric as ASCII `Char.isAlphanum`). -/
def pyIsAlnum (s : String) : Bool :=
  !s.data.isEmpty && s.data.all Char.isAlphanum

/-- Python `needle in hay` for strings: contiguous-substring test. -/
def listInfixOf (needle hay : List Char) : Bool :=
  needle.isPrefixOf hay ||
    match hay with
    | [] => false
    | _ :: t => listInfixOf needle t

/-- Substring containment on strings (Python `needle in hay`). -/
def pySubstr (needle hay : String) : Bool := listInfixOf needle.data hay.data

/-- `sequence[i:i+80]` chunks of the writers: hard wrap at 80 characters.
An empty sequence produces no chunk (Python `range(0, 0, 80)` is empty).
Structural recursion on a fuel argument (the list length bounds the number
of chunks) so that concrete instances reduce in the kernel. -/
def wrap80Go : Nat → List Char → List (List Char)
  | 0, _ => []
  | _, [] => []
  | fuel + 1, c :: cs => ((c :: cs).take 80) :: wrap80Go fuel ((c :: cs).drop 80)

/-- Hard 80-character wrapping of a sequence. -/
def wrap80 (l : List Char) : List (List Char) := wrap80Go l.length l

/-- The sequence lines written by `f.write(sequence[i:i+80] + "\n")`. -/
def wrapLines (s : String) : List String := (wrap80 s.data).map String.mk

/-! ## Python `dict` model: insertion-ordered association lists -/

/-- `k in d`. -/
def dictContains : List (String × α) → String → Bool
  | [], _ => false
  | p :: rest, k => p.1 == k || dictContains rest k

/-- `d.get(k)` / `d[k]`: value of the first entry with key `k`, if present
(keys are unique in every dict this development builds). -/
def dictGet? : List (String × α) → String → Option α
  | [], _ => Option.none
  | p :: rest, k => if p.1 = k then Option.some p.2 else dictGet? rest k

/-- Overwrite the value stored under an existing key, keeping its position. -/
def dictSet : List (String × α) → String → α → List (String × α)
  | [], _, _ => []
  | p :: rest, k, v => (if p.1 = k then (k, v) else p) :: dictSet rest k v

/-- `d[k] = v`: update in place if the key exists (keeping its position),
otherwise append — Python dict assignment semantics. -/
def dictInsert (d : List (String × α)) (k : String) (v : α) : List (String × α) :=
  if dictContains d k then dictSet d k v else d ++ [(k, v)]

/-- Apply `f` to the value stored under `k` (mutating update of a dict
entry); identity when the key is absent. -/
def dictModify : List (String × α) → String → (α → α) → List (String × α)
  | [], _, _ => []
  | p :: rest, k, f => (if p.1 = k then (k, f p.2) else p) :: dictModify rest k f

/-! ## `FastaBuilder.validate_pdb_id` -/

/-- `validate_pdb_id`: reject empty or non-4-character tokens, then require
`isalnum` (src/build_fasta.py lines 56-77). -/
def validatePdbId (pdbId : String) : Bool :=
  if pdbId.data = [] ∨ pdbId.data.length ≠ 4 then false
  else pyIsAlnum pdbId

/-! ## `FastaBuilder.fetch_pdb_info`: retry loop as an event trace

The network attempt outcomes are supplied as an oracle `Nat → AttemptOutcome`
(outcome of attempt number `i`).  `reqError` is any
`requests.exceptions.RequestException` (transport error or the
`raise_for_status` HTTP error); `success rs` is a 2xx response whose
decoded `result_set` is `rs` (a missing `result_set` key behaves like
`[]`: both return `None` without retrying). -/

inductive AttemptOutcome where
  | reqError
  | success (resultSet : List String)

inductive FetchEvent where
  | attempt
  | sleep
deriving DecidableEq, Repr

/-- The `for attempt in range(max_retries)` loop of `fetch_pdb_info`
(src/build_fasta.py lines 113-139).  `i` is the current attempt index,
the last match argument the number of loop iterations left; falling off
the loop returns Python's implicit `None`.  Returns the result together
with the trace of attempts and sleeps. -/
def fetchAttempts (outcome : Nat → AttemptOutcome) (i : Nat) :
    Nat → Option String × List FetchEvent
  | 0 => (Option.none, [])
  | r + 1 =>
    match outcome i with
    | AttemptOutcome.success rs => (rs.head?, [FetchEvent.attempt])
    | AttemptOutcome.reqError =>
      if r = 0 then (Option.none, [FetchEvent.attempt])
      else
        let p := fetchAttempts outcome (i + 1) r
        (p.1, FetchEvent.attempt :: FetchEvent.sleep :: p.2)

/-- `fetch_pdb_info`: validation guard, then the retry loop. -/
def fetchPdbInfo (pdbId : String) (maxRetries : Nat)
    (outcome : Nat → AttemptOutcome) : Option String × List FetchEvent :=
  if validatePdbId pdbId = false then (Option.none, [])
  else fetchAttempts outcome 0 maxRetries

/-- The event trace of `r` consecutive failing attempts: an attempt, then
sleep/attempt pairs. -/
def failTrace : Nat → List FetchEvent
  | 0 => []
  | 1 => [FetchEvent.attempt]
  | r + 2 => FetchEvent.attempt :: FetchEvent.sleep :: failTrace (r + 1)

/-! ## `FastaBuilder._parse_fasta_file` (src/build_fasta.py lines 1142-1182)

The file content is given as its list of lines (`readlines` minus the
newline handling: each line is immediately `strip`ped by the code, which
removes the trailing newline as well, so passing newline-free lines is
equivalent). -/

/-- The flush `if current_header and current_sequence: fasta_data[h] = ''.join(cs)`:
runs when a new header starts and once at end of input. -/
def flushFasta (d : List (String × String)) (ch : Option String)
    (cs : List String) : List (String × String) :=
  match ch with
  | Option.none => d
  | Option.some h => if h ≠ "" ∧ cs ≠ [] then dictInsert d h (String.join cs) else d

/-- The line loop of `_parse_fasta_file`: `d` is `fasta_data`, `ch` the
current header (`None` before the first header; note that a bare `>` line
sets it to the falsy `""`), `cs` the accumulated sequence lines. -/
def parseFastaAux (d : List (String × String)) (ch : Option String)
    (cs : List String) : List String → List (String × String)
  | [] => flushFasta d ch cs
  | l :: ls =>
    let line := pyStrip l
    if pyStartsWith line ">" then
      parseFastaAux (flushFasta d ch cs) (Option.some (strDrop1 line)) [] ls
    else if line ≠ "" ∧ optTruthy ch then parseFastaAux d ch (cs ++ [line]) ls
    else parseFastaAux d ch cs ls

/-- `_parse_fasta_file` on the given file content. -/
def parseFastaLines (lines : List String) : List (String × String) :=
  parseFastaAux [] Option.none [] lines

/-- Specification view of the same scan: the list of (header, sequence-line
block) records the loop walks through, including the pending final one;
a record's header is `none` before the first `>` line.  Used to state
which records produce entries. -/
def fastaBlocksAux (ch : Option String) (cs : List String) :
    List String → List (Option String × List String)
  | [] => [(ch, cs)]
  | l :: ls =>
    let line := pyStrip l
    if pyStartsWith line ">" then
      (ch, cs) :: fastaBlocksAux (Option.some (strDrop1 line)) [] ls
    else if line ≠ "" ∧ optTruthy ch then fastaBlocksAux ch (cs ++ [line]) ls
    else fastaBlocksAux ch cs ls

/-- All (header, body) records of a FASTA text, in order. -/
def fastaBlocks (lines : List String) : List (Option String × List String) :=
  fastaBlocksAux Option.none [] lines

/-- One flush step, as folded over the records of `fastaBlocks`. -/
def flushStep (acc : List (String × String)) (b : Option String × List String) :
    List (String × String) :=
  flushFasta acc b.1 b.2

/-! ## `FastaBuilder._parse_cif_file` (src/build_fasta.py lines 1060-1140) -/

/-- `current_section` of the CIF line loop (`None` initially). -/
inductive CifSection where
  | nosection
  | entity
  | sequence
  | atoms
deriving DecidableEq, Repr

/-- The parsed CIF data: the `entities` dict maps a key (in this code,
the attribute-name suffix of the last `_entity.` tag seen) to an
attribute dict whose values are `None` until positionally filled; the
`sequences` dict maps a key (a tag suffix, registered with `[]`, or the
first whitespace field of a data row) to its collected
(`seq_id`, `res_name`) rows; `chains` is created but never written. -/
structure CifData where
  entities : List (String × List (String × Option String))
  sequences : List (String × List (String × String))
  chains : List (String × String)
deriving DecidableEq, Repr

/-- State of the CIF line loop. -/
structure CifParseState where
  cd : CifData
  sec : CifSection
  curEntity : Option String
deriving DecidableEq, Repr

/-- The `_entity.` / `_entity_poly_seq.` / `_atom_site.` section-marker
chain at the top of the loop body. -/
def cifLineSection (line : String) (sec : CifSection) : CifSection :=
  if pyStartsWith line "_entity." then CifSection.entity
  else if pyStartsWith line "_entity_poly_seq." then CifSection.sequence
  else if pyStartsWith line "_atom_site." then CifSection.atoms
  else sec

/-- The skip at the top of the loop: blank lines and `#` comments. -/
def cifSkipLine (line : String) : Bool :=
  line = "" || pyStartsWith line "#"

/-- Fill the first still-`None` attribute in insertion order (the
`for key in ...: if ... is None: ...; break` positional heuristic). -/
def fillFirstNone (v : String) : List (String × Option String) → List (String × Option String)
  | [] => []
  | (k, Option.none) :: rest => (k, Option.some v) :: rest
  | p :: rest => p :: fillFirstNone v rest

/-- The `current_entity` update: every `_entity.` tag line replaces it by
the tag's attribute-name suffix. -/
def cifCurEntity (ce : Option String) (line : String) : Option String :=
  if pyStartsWith line "_entity." then Option.some (splitDotField1 line) else ce

/-- The updates to `cif_data['entities']` performed for one (non-skipped,
stripped) line: registration of the dict for a new `current_entity` on an
`_entity.` tag line, then — when the post-marker section is `entity` and
`current_entity` is truthy — either registration of the attribute key
with value `None`, or positional filling of the first unfilled attribute
by a value line. -/
def cifEntsStep (ents : List (String × List (String × Option String)))
    (sec : CifSection) (ce : Option String) (line : String) :
    List (String × List (String × Option String)) :=
  let sec2 := cifLineSection line sec
  let ce2 := cifCurEntity ce line
  let ents0 :=
    if pyStartsWith line "_entity." then
      let k := splitDotField1 line
      if dictContains ents k then ents else ents ++ [(k, [])]
    else ents
  if sec2 = CifSection.entity ∧ optTruthy ce2 = true then
    if pyStartsWith line "_entity." then
      dictModify ents0 (ce2.getD "")
        (fun attrs => dictInsert attrs (splitDotField1 line) Option.none)
    else if pyStartsWith line "_" = false then
      if dictContains ents0 (ce2.getD "") then
        dictModify ents0 (ce2.getD "") (fillFirstNone line)
      else ents0
    else ents0
  else ents0

/-- The updates to `cif_data['sequences']` performed for one (non-skipped,
stripped) line while the post-marker section is `sequence`: key
registration with `[]` (only if absent) on an `_entity_poly_seq.` tag
line, or — for a value line that splits into at least three fields —
appending the (`seq_id`, `res_name`) row under the `entity_id` field. -/
def cifSeqsStep (seqs : List (String × List (String × String)))
    (sec : CifSection) (line : String) : List (String × List (String × String)) :=
  if cifLineSection line sec = CifSection.sequence then
    if pyStartsWith line "_entity_poly_seq." then
      let k := splitDotField1 line
      if dictContains seqs k then seqs else seqs ++ [(k, [])]
    else if pyStartsWith line "_" = false then
      let parts := pySplitWs line
      if 3 ≤ parts.length then
        let e := parts.getD 0 ""
        let row := (parts.getD 1 "", parts.getD 2 "")
        if dictContains seqs e then
          dictModify seqs e (fun rows => rows ++ [row])
        else seqs ++ [(e, [row])]
      else seqs
    else seqs
  else seqs

/-- One iteration of the `_parse_cif_file` line loop: strip, skip blank
and comment lines, run the section-marker chain, then the entity block
and the sequence block (each guarded by the post-marker section, so at
most one of them changes its dict). -/
def parseCifStep (st : CifParseState) (raw : String) : CifParseState :=
  let line := pyStrip raw
  if cifSkipLine line then st
  else
    { cd := { entities := cifEntsStep st.cd.entities st.sec st.curEntity line,
              sequences := cifSeqsStep st.cd.sequences st.sec line,
              chains := st.cd.chains },
      sec := cifLineSection line st.sec,
      curEntity := cifCurEntity st.curEntity line }

/-- Initial state: empty dicts, no section, no current entity. -/
def initCifState : CifParseState :=
  { cd := { entities := [], sequences := [], chains := [] },
    sec := CifSection.nosection, curEntity := Option.none }

/-- `_parse_cif_file` on the given file content (the `None`-on-exception
path does not arise for in-memory content). -/
def parseCifLines (lines : List String) : CifData :=
  (lines.foldl parseCifStep initCifState).cd

/-! ## `FastaBuilder._get_cif_sequence` (src/build_fasta.py lines 1231-1261) -/

/-- The fixed 22-entry three-letter → one-letter residue table. -/
def aaMapping : List (String × String) :=
  [("ALA", "A"), ("ARG", "R"), ("ASN", "N"), ("ASP", "D"), ("CYS", "C"),
   ("GLN", "Q"), ("GLU", "E"), ("GLY", "G"), ("HIS", "H"), ("ILE", "I"),
   ("LEU", "L"), ("LYS", "K"), ("MET", "M"), ("PHE", "F"), ("PRO", "P"),
   ("SER", "S"), ("THR", "T"), ("TRP", "W"), ("TYR", "Y"), ("VAL", "V"),
   ("SEC", "U"), ("PYL", "O")]

/-- `aa_mapping[res_name] if res_name in aa_mapping else 'X'`. -/
def aaOneLetter (resName : String) : String :=
  (dictGet? aaMapping resName).getD "X"

/-- `_get_cif_sequence`: residues of the stored rows, in stored order,
mapped through the table and concatenated; `""` for an unknown key. -/
def getCifSequence (cd : CifData) (entityId : String) : String :=
  match dictGet? cd.sequences entityId with
  | Option.none => ""
  | Option.some rows => String.join (rows.map (fun r => aaOneLetter r.2))

/-- Specification view for one stripped, non-skipped line: the
(`seq_id`, `res_name`) row the sequence section contributes for entity
`eid`, if any.  `sec` is the section in force before the line. -/
def cifLineRowsCore (eid : String) (sec : CifSection) (line : String) :
    List (String × String) :=
  let parts := pySplitWs line
  if cifLineSection line sec = CifSection.sequence ∧ pyStartsWith line "_" = false ∧
      3 ≤ parts.length ∧ parts.getD 0 "" = eid then
    [(parts.getD 1 "", parts.getD 2 "")]
  else []

/-- Specification view for one raw line. -/
def cifLineRows (eid : String) (sec : CifSection) (raw : String) :
    List (String × String) :=
  if cifSkipLine (pyStrip raw) then []
  else cifLineRowsCore eid sec (pyStrip raw)

/-- Specification view of the whole file: the (`seq_id`, `res_name`) rows
for entity `eid` in the order the lines present them. -/
def cifSpecRows (eid : String) : CifSection → List String → List (String × String)
  | _, [] => []
  | sec, l :: ls =>
    cifLineRows eid sec l ++
      cifSpecRows eid
        (if cifSkipLine (pyStrip l) then sec else cifLineSection (pyStrip l) sec) ls

/-- The (`seq_id`, `res_name`) rows stored for `eid` (`[]` when absent). -/
def seqRowsOf (cd : CifData) (eid : String) : List (String × String) :=
  (dictGet? cd.sequences eid).getD []

/-! ## `FastaBuilder._find_matching_fasta` (src/build_fasta.py lines 1263-1286) -/

/-- `_find_matching_fasta`: exact-equality pass over the records in
insertion order, then a substring-containment pass; returns only the
matched header — no similarity score is computed. -/
def findMatchingFasta (cifSequence : String) (fastaData : List (String × String)) :
    Option String :=
  if cifSequence = "" then Option.none
  else
    match fastaData.find? (fun p => p.2 == cifSequence) with
    | Option.some p => Option.some p.1
    | Option.none =>
      match fastaData.find?
          (fun p => pySubstr cifSequence p.2 || pySubstr p.2 cifSequence) with
      | Option.some p => Option.some p.1
      | Option.none => Option.none

/-! ## `FastaBuilder._create_annotations` (src/build_fasta.py lines 1184-1229) -/

/-- One annotated entry (the dicts appended to `annotated_sequences`).
`entityTitle` stores the string that the writer's f-string will render
(`"None"` for a registered-but-unfilled `pdbx_description`). -/
structure AnnotatedSeq where
  entityId : String
  entityType : String
  entityTitle : String
  cifSequence : String
  fastaHeader : Option String
  fastaSequence : Option String
deriving DecidableEq, Repr

/-- `entity_info.get('type', '')`: a registered-but-unfilled attribute
yields Python `None` (modelled as `Option.none`), a missing key the
default `''`. -/
def entityTypeOf (info : List (String × Option String)) : Option String :=
  match dictGet? info "type" with
  | Option.some v => v
  | Option.none => Option.some ""

/-- The polymer whitelist of `_create_annotations`. -/
def polymerTypes : List String :=
  ["polymer", "polypeptide(L)", "polyribonucleotide", "polydeoxyribonucleotide"]

/-- `entity_type in [...]`: Python `None` is never in a list of strings. -/
def isPolymerInfo (info : List (String × Option String)) : Bool :=
  match entityTypeOf info with
  | Option.some t => t ∈ polymerTypes
  | Option.none => false

/-- `entity_info.get('pdbx_description', 'Unknown')` as rendered by the
writer's f-string (Python `None` prints as `"None"`). -/
def entityTitleOf (info : List (String × Option String)) : String :=
  match dictGet? info "pdbx_description" with
  | Option.some (Option.some t) => t
  | Option.some Option.none => "None"
  | Option.none => "Unknown"

/-- `_create_annotations`: one entry per polymer entity, matched against
the FASTA records (`fasta_data[matched]` lookup modelled with a `""`
default that never fires because the matcher returns existing keys). -/
def createAnnotated (cd : CifData) (fastaData : List (String × String)) :
    List AnnotatedSeq :=
  cd.entities.flatMap (fun p =>
    if isPolymerInfo p.2 then
      let cifSeq := getCifSequence cd p.1
      match findMatchingFasta cifSeq fastaData with
      | Option.some h =>
        [{ entityId := p.1, entityType := (entityTypeOf p.2).getD "",
           entityTitle := entityTitleOf p.2, cifSequence := cifSeq,
           fastaHeader := Option.some h,
           fastaSequence := Option.some ((dictGet? fastaData h).getD "") }]
      | Option.none =>
        [{ entityId := p.1, entityType := (entityTypeOf p.2).getD "",
           entityTitle := entityTitleOf p.2, cifSequence := cifSeq,
           fastaHeader := Option.none, fastaSequence := Option.none }]
    else [])

/-! ## `FastaBuilder._write_annotated_sequences` (src/build_fasta.py lines 1288-1308) -/

/-- The `>Entity_{id} | {type} | {title}` header line. -/
def annotatedHeaderLine (a : AnnotatedSeq) : String :=
  ">Entity_" ++ a.entityId ++ " | " ++ a.entityType ++ " | " ++ a.entityTitle

/-- The lines written for one entry: header, then the 80-character-wrapped
`fasta_sequence or cif_sequence` (nothing when that is falsy, matching the
`if sequence:` guard, since wrapping `""` yields no lines), then a blank
line. -/
def renderAnnotated (a : AnnotatedSeq) : List String :=
  annotatedHeaderLine a :: (wrapLines (pyOrStr a.fastaSequence a.cifSequence) ++ [""])

/-- `_write_annotated_sequences`: the full list of lines written. -/
def writeAnnotatedSequences (anns : List AnnotatedSeq) : List String :=
  anns.flatMap renderAnnotated

/-! ## `FastaBuilder.create_annotated_sequence` (src/build_fasta.py lines 1001-1058)

File existence is modelled by passing the contents; the `None`-on-exception
parser paths do not arise for in-memory content. -/

/-- Python truthiness of the parsed CIF data: `_parse_cif_file` always
returns the dict `{'entities': ..., 'sequences': ..., 'chains': ...}`,
a three-key dict, which is always truthy — so `if not cif_data` never
fires for successfully read content, however empty. -/
def cifDataFalsy (_ : CifData) : Bool := false

/-- `create_annotated_sequence`: returns (success, message, written file
lines — `Option.none` when no output file is opened). -/
def createAnnotatedSequence (cifFile fastaFile outputFile : String)
    (cifLines fastaLines : List String) : Bool × String × Option (List String) :=
  let cifData := parseCifLines cifLines
  if cifDataFalsy cifData then
    (false, "Error: Failed to parse CIF file: " ++ cifFile, Option.none)
  else
    let fastaData := parseFastaLines fastaLines
    if fastaData.isEmpty then
      (false, "Error: Failed to parse FASTA file: " ++ fastaFile, Option.none)
    else
      (true, "Successfully created annotated sequence file: " ++ outputFile,
        Option.some (writeAnnotatedSequences (createAnnotated cifData fastaData)))

/-! ## `FastaBuilder.build_fasta_from_multiple_pdbs` (src/build_fasta.py lines 458-550)

The three network-backed helpers the loop calls are abstracted as an
oracle giving their already-retried results: `polymerEntities` returns the
`entity_id` values of the fetched entity list (the only field the loop
reads), `entityInfo` the fields of `get_entity_info` that the loop reads
(`Option.none` also covers a falsy empty dict), and `fastaSequence` the
fetched sequence. -/

/-- The fields of a `get_entity_info` result consumed by the loop;
`Option.none` in a field means the key is missing, so the `.get` default
applies. -/
structure EntityInfoR where
  title : Option String
  entityType : Option String
deriving DecidableEq, Repr

/-- The network oracle. -/
structure PdbOracle where
  polymerEntities : String → Option (List String)
  entityInfo : String → String → Option EntityInfoR
  fastaSequence : String → String → Option String

/-- The per-entity body of the loop: info fetch, sequence fetch (both
`continue` on falsy), then the `>pdb|...` header, wrapped sequence and
blank line. -/
def renderPdbEntity (o : PdbOracle) (pdbId eid : String) : Option (List String) :=
  match o.entityInfo pdbId eid with
  | Option.none => Option.none
  | Option.some info =>
    match o.fastaSequence pdbId eid with
    | Option.none => Option.none
    | Option.some seq =>
      if seq = "" then Option.none
      else
        Option.some
          ((">pdb|" ++ pdbId ++ "|entity_" ++ eid ++ "|" ++
              info.entityType.getD "Unknown" ++ "|" ++
              info.title.getD ("Unknown protein from " ++ pdbId)) ::
            (wrapLines seq ++ [""]))

/-- The lines one identifier contributes to the output file. -/
def pdbRenderedLines (o : PdbOracle) (pdbId : String) : List String :=
  match o.polymerEntities pdbId with
  | Option.none => []
  | Option.some es => es.flatMap (fun e => (renderPdbEntity o pdbId e).getD [])

/-- Whether one identifier yields at least one written entity
(`pdb_success`). -/
def pdbSucceeds (o : PdbOracle) (pdbId : String) : Bool :=
  match o.polymerEntities pdbId with
  | Option.none => false
  | Option.some es => es.any (fun e => (renderPdbEntity o pdbId e).isSome)

/-- The `for pdb_id in pdb_ids` loop: returns (written lines,
`successful_pdbs`, `failed_pdbs`). -/
def processPdbBatch (o : PdbOracle) : List String → List String × List String × List String
  | [] => ([], [], [])
  | pdbId :: rest =>
    let r := processPdbBatch o rest
    match o.polymerEntities pdbId with
    | Option.none => (r.1, r.2.1, (pdbId ++ " (no polymer entities)") :: r.2.2)
    | Option.some es =>
      if es.isEmpty then (r.1, r.2.1, (pdbId ++ " (no polymer entities)") :: r.2.2)
      else
        let lines := es.flatMap (fun e => (renderPdbEntity o pdbId e).getD [])
        if es.any (fun e => (renderPdbEntity o pdbId e).isSome) then
          (lines ++ r.1, pdbId :: r.2.1, r.2.2)
        else (r.1, r.2.1, (pdbId ++ " (no sequences found)") :: r.2.2)

/-- `build_fasta_from_multiple_pdbs`: empty-input guard, the up-front
validation of every identifier (which returns before the output file is
opened), then the loop and the assembled result message.  Returns
(success, message, written file lines — `Option.none` when the file is
never opened). -/
def buildFastaFromMultiplePdbs (o : PdbOracle) (pdbIds : List String)
    (outputFile : String) : Bool × String × Option (List String) :=
  if pdbIds.isEmpty then (false, "No PDB IDs provided", Option.none)
  else
    let invalid := pdbIds.filter (fun i => validatePdbId i = false)
    if invalid.isEmpty = false then
      (false, "Invalid PDB ID(s): " ++ String.intercalate ", " invalid, Option.none)
    else
      let r := processPdbBatch o pdbIds
      let parts :=
        ["Successfully created FASTA file: " ++ outputFile] ++
          (if r.2.1.isEmpty = false then
            ["Successfully processed: " ++ String.intercalate ", " r.2.1] else []) ++
          (if r.2.2.isEmpty = false then
            ["Failed to process: " ++ String.intercalate ", " r.2.2] else [])
      (!r.2.1.isEmpty, String.intercalate " | " parts, Option.some r.1)

/-! ## Spec-modelled similarity scoring

Modelled from the spec (§4.5 SequenceMatcher): the specification describes
a combined similarity `0.6 × identity + 0.4 × coverage` (identity =
position-wise equality over the shorter length, coverage = longest common
substring length over the shorter length, clamped to 1.0).  No such
computation exists in the source (`_find_matching_fasta` returns only a
header); these definitions state the spec's formula so it can be compared
with the source's matcher. -/

/-- Modelled from the spec: count of positions with equal characters, up
to the shorter length. -/
def specIdentityCount : List Char → List Char → Nat
  | a :: as, b :: bs => (if a = b then 1 else 0) + specIdentityCount as bs
  | _, _ => 0

/-- Length of the longest common prefix of two character lists. -/
def commonPrefixLen : List Char → List Char → Nat
  | a :: as, b :: bs => if a = b then 1 + commonPrefixLen as bs else 0
  | _, _ => 0

/-- All suffixes of a character list (including itself and `[]`). -/
def charTails : List Char → List (List Char)
  | [] => [[]]
  | c :: cs => (c :: cs) :: charTails cs

/-- Modelled from the spec: longest common (contiguous) substring length,
as the maximum over all suffix pairs of their common prefix length. -/
def specLcsLen (a b : List Char) : Nat :=
  ((charTails a).flatMap (fun sa => (charTails b).map (fun sb => commonPrefixLen sa sb))).foldr max 0

/-- Modelled from the spec: positional identity over the shorter length. -/
def specIdentity (a b : String) : ℚ :=
  if min a.data.length b.data.length = 0 then 0
  else (specIdentityCount a.data b.data : ℚ) / (min a.data.length b.data.length : ℚ)

/-- Modelled from the spec: LCS-based coverage over the shorter length. -/
def specCoverage (a b : String) : ℚ :=
  if min a.data.length b.data.length = 0 then 0
  else (specLcsLen a.data b.data : ℚ) / (min a.data.length b.data.length : ℚ)

/-- Modelled from the spec: combined similarity
`0.6 × identity + 0.4 × coverage`, clamped to a maximum of `1.0`. -/
def specCombinedSimilarity (a b : String) : ℚ :=
  min 1 ((0.6 : ℚ) * specIdentity a b + (0.4 : ℚ) * specCoverage a b)

/-! ## Concrete data for counterexamples and witnesses -/

/-- An oracle on which identifier `1ABC` fully succeeds (one entity with
an available info record and sequence) and every other identifier fails
to fetch. -/
def goodOracle : PdbOracle where
  polymerEntities := fun pdbId => if pdbId = "1ABC" then Option.some ["1"] else Option.none
  entityInfo := fun pdbId eid =>
    if pdbId = "1ABC" ∧ eid = "1" then
      Option.some { title := Option.some "Protein X", entityType := Option.some "polymer" }
    else Option.none
  fastaSequence := fun pdbId eid =>
    if pdbId = "1ABC" ∧ eid = "1" then Option.some "MKV" else Option.none

/-- Writing a header→sequence mapping with the program's FASTA writer
(`_write_annotated_sequences`): one entry per pair, carrying the pair's
header as entity identifier and its sequence as the matched FASTA
sequence — the only sequence-bearing field the writer prefers. -/
def annotatedOfMapping (m : List (String × String)) : List AnnotatedSeq :=
  m.map (fun p =>
    { entityId := p.1, entityType := "polymer", entityTitle := "Unknown",
      cifSequence := "", fastaHeader := Option.some p.1,
      fastaSequence := Option.some p.2 })

/-- A CIF input whose `_entity_poly_seq` data rows appear with descending
numeric positions. -/
def cifOutOfOrderLines : List String :=
  ["_entity_poly_seq.entity_id", "1 2 GLY", "1 1 ALA"]

/-- Concrete CIF data with one polymer entity whose extracted sequence is
`"A"`. -/
def cdWitness : CifData :=
  { entities := [("type", [("type", Option.some "polymer")])],
    sequences := [("type", [("1", "ALA")])],
    chains := [] }

/-- Concrete FASTA records matching `cdWitness`. -/
def fdWitness : List (String × String) := [("h1", "A"), ("h2", "ZZZ")]

/-! ## Helper lemmas: dictionaries and lists -/

theorem dictGet?_none_of_not_contains {α : Type} (d : List (String × α)) (k : String)
    (h : dictContains d k = false) : dictGet? d k = Option.none := by
  induction d with
  | nil => rfl
  | cons p rest ih =>
    simp only [dictContains, Bool.or_eq_false_iff, beq_eq_false_iff_ne] at h
    simp only [dictGet?, if_neg h.1, ih h.2]

theorem dictGet?_isSome_of_contains {α : Type} (d : List (String × α)) (k : String)
    (h : dictContains d k = true) : ∃ v, dictGet? d k = Option.some v := by
  induction d with
  | nil => simp [dictContains] at h
  | cons p rest ih =>
    by_cases hk : p.1 = k
    · exact ⟨p.2, by simp [dictGet?, hk]⟩
    · simp only [dictContains, Bool.or_eq_true, beq_iff_eq] at h
      rcases h with h | h
      · exact absurd h hk
      · obtain ⟨v, hv⟩ := ih h
        exact ⟨v, by simp [dictGet?, hk, hv]⟩

theorem dictGet?_set_self {α : Type} (d : List (String × α)) (k : String) (v : α)
    (h : dictContains d k = true) : dictGet? (dictSet d k v) k = Option.some v := by
  induction d with
  | nil => simp [dictContains] at h
  | cons p rest ih =>
    by_cases hk : p.1 = k
    · simp [dictSet, dictGet?, hk]
    · simp only [dictContains, Bool.or_eq_true, beq_iff_eq] at h
      rcases h with h | h
      · exact absurd h hk
      · simp [dictSet, dictGet?, hk, ih h]

theorem dictGet?_set_ne {α : Type} (d : List (String × α)) (k k' : String) (v : α)
    (h : k' ≠ k) : dictGet? (dictSet d k v) k' = dictGet? d k' := by
  induction d with
  | nil => rfl
  | cons p rest ih =>
    by_cases hk : p.1 = k
    · simp [dictSet, dictGet?, hk, Ne.symm h, ih]
    · simp [dictSet, dictGet?, hk, ih]

theorem dictGet?_append_self {α : Type} (d : List (String × α)) (k : String) (v : α)
    (h : dictContains d k = false) : dictGet? (d ++ [(k, v)]) k = Option.some v := by
  induction d with
  | nil => simp [dictGet?]
  | cons p rest ih =>
    simp only [dictContains, Bool.or_eq_false_iff, beq_eq_false_iff_ne] at h
    simp only [List.cons_append, dictGet?, if_neg h.1]
    exact ih h.2

theorem dictGet?_append_ne {α : Type} (d : List (String × α)) (k k' : String) (v : α)
    (h : k' ≠ k) : dictGet? (d ++ [(k, v)]) k' = dictGet? d k' := by
  induction d with
  | nil => simp [dictGet?, Ne.symm h]
  | cons p rest ih =>
    by_cases hk : p.1 = k'
    · simp [dictGet?, hk]
    · simp [dictGet?, hk, ih]

theorem dictGet?_insert_self {α : Type} (d : List (String × α)) (k : String) (v : α) :
    dictGet? (dictInsert d k v) k = Option.some v := by
  unfold dictInsert
  by_cases h : dictContains d k = true
  · simp [h, dictGet?_set_self d k v h]
  · simp only [Bool.not_eq_true] at h
    simp [h, dictGet?_append_self d k v h]

theorem dictGet?_insert_ne {α : Type} (d : List (String × α)) (k k' : String) (v : α)
    (h : k' ≠ k) : dictGet? (dictInsert d k v) k' = dictGet? d k' := by
  unfold dictInsert
  by_cases hc : dictContains d k = true
  · simp [hc, dictGet?_set_ne d k k' v h]
  · simp only [Bool.not_eq_true] at hc
    simp [hc, dictGet?_append_ne d k k' v h]

theorem dictGet?_modify_self {α : Type} (d : List (String × α)) (k : String) (f : α → α) :
    dictGet? (dictModify d k f) k = (dictGet? d k).map f := by
  induction d with
  | nil => rfl
  | cons p rest ih =>
    by_cases hk : p.1 = k
    · simp [dictModify, dictGet?, hk]
    · simp [dictModify, dictGet?, hk, ih]

theorem dictGet?_modify_ne {α : Type} (d : List (String × α)) (k k' : String) (f : α → α)
    (h : k' ≠ k) : dictGet? (dictModify d k f) k' = dictGet? d k' := by
  induction d with
  | nil => rfl
  | cons p rest ih =>
    by_cases hk : p.1 = k
    · simp [dictModify, dictGet?, hk, Ne.symm h, ih]
    · simp [dictModify, dictGet?, hk, ih]

theorem dictGet?_mem {α : Type} (d : List (String × α)) (k : String) (v : α)
    (h : dictGet? d k = Option.some v) : (k, v) ∈ d := by
  induction d with
  | nil => simp [dictGet?] at h
  | cons p rest ih =>
    by_cases hk : p.1 = k
    · simp only [dictGet?, if_pos hk, Option.some.injEq] at h
      subst h
      subst hk
      simp
    · simp only [dictGet?, if_neg hk] at h
      exact List.mem_cons_of_mem _ (ih h)

theorem flatMap_congr_mem {β γ : Type} (l : List β) (f g : β → List γ)
    (h : ∀ a ∈ l, f a = g a) : l.flatMap f = l.flatMap g := by
  induction l with
  | nil => rfl
  | cons a l ih =>
    simp only [List.flatMap_cons, h a (List.mem_cons_self a l),
      ih (fun b hb => h b (List.mem_cons_of_mem a hb))]

theorem filter_eq_nil_of_false {β : Type} (l : List β) (p : β → Bool)
    (h : ∀ a ∈ l, p a = false) : l.filter p = [] := by
  induction l with
  | nil => rfl
  | cons a l ih =>
    have ha := h a (List.mem_cons_self a l)
    simp only [List.filter_cons, ha, Bool.false_eq_true, if_false]
    exact ih fun b hb => h b (List.mem_cons_of_mem a hb)

theorem isPrefixOf_trans (a b c : List Char) (hab : a.isPrefixOf b = true)
    (hbc : b.isPrefixOf c = true) : a.isPrefixOf c = true := by
  induction a generalizing b c with
  | nil => simp [List.isPrefixOf]
  | cons x xs ih =>
    cases b with
    | nil => simp [List.isPrefixOf] at hab
    | cons y ys =>
      cases c with
      | nil => simp [List.isPrefixOf] at hbc
      | cons z zs =>
        simp only [List.isPrefixOf, Bool.and_eq_true, beq_iff_eq] at hab hbc ⊢
        exact ⟨hab.1.trans hbc.1, ih ys zs hab.2 hbc.2⟩

theorem pyStartsWith_underscore (s p : String) (hp : ("_" : String).data.isPrefixOf p.data = true)
    (h : pyStartsWith s p = true) : pyStartsWith s "_" = true :=
  isPrefixOf_trans _ _ _ hp h

theorem getLast?_concat_form {β : Type} (l : List β) (b : β)
    (h : l.getLast? = Option.some b) : ∃ l', l = l' ++ [b] := by
  induction l with
  | nil => simp at h
  | cons x xs ih =>
    cases xs with
    | nil =>
      simp only [List.getLast?_singleton, Option.some.injEq] at h
      exact ⟨[], by simp [h]⟩
    | cons y ys =>
      rw [List.getLast?_cons_cons] at h
      obtain ⟨l', hl'⟩ := ih h
      exact ⟨x :: l', by simp [hl']⟩

/-! ## FASTA parser: flush-per-record characterisation -/

theorem flushFasta_none (d : List (String × String)) (cs : List String) :
    flushFasta d Option.none cs = d := rfl

theorem flushFasta_some_pos (d : List (String × String)) (h : String) (cs : List String)
    (hcond : h ≠ "" ∧ cs ≠ []) :
    flushFasta d (Option.some h) cs = dictInsert d h (String.join cs) := by
  simp [flushFasta, hcond]

theorem flushFasta_some_neg (d : List (String × String)) (h : String) (cs : List String)
    (hcond : ¬(h ≠ "" ∧ cs ≠ [])) : flushFasta d (Option.some h) cs = d := by
  simp only [flushFasta, if_neg hcond]

theorem parseFastaAux_eq_foldl_blocks (lines : List String) :
    ∀ (d : List (String × String)) (ch : Option String) (cs : List String),
      parseFastaAux d ch cs lines = (fastaBlocksAux ch cs lines).foldl flushStep d := by
  induction lines with
  | nil =>
    intro d ch cs
    simp [parseFastaAux, fastaBlocksAux, flushStep, List.foldl]
  | cons l ls ih =>
    intro d ch cs
    simp only [parseFastaAux, fastaBlocksAux]
    by_cases h1 : pyStartsWith (pyStrip l) ">" = true
    · rw [if_pos h1, if_pos h1, List.foldl_cons]
      rw [ih]
      rfl
    · rw [if_neg h1, if_neg h1]
      by_cases h2 : pyStrip l ≠ "" ∧ optTruthy ch = true
      · rw [if_pos h2, if_pos h2]
        exact ih d ch (cs ++ [pyStrip l])
      · rw [if_neg h2, if_neg h2]
        exact ih d ch cs

theorem foldl_flushStep_get (bs : List (Option String × List String)) :
    ∀ (d : List (String × String)) (h : String) (v : String),
      dictGet? (bs.foldl flushStep d) h = Option.some v →
        dictGet? d h = Option.some v ∨
          ∃ b ∈ bs, b.1 = Option.some h ∧ h ≠ "" ∧ b.2 ≠ [] ∧ String.join b.2 = v := by
  induction bs with
  | nil =>
    intro d h v hv
    exact Or.inl hv
  | cons b bs ih =>
    intro d h v hv
    rw [List.foldl_cons] at hv
    rcases ih (flushStep d b) h v hv with hd | ⟨b', hb', hprop⟩
    · have hstep : flushStep d b = flushFasta d b.1 b.2 := rfl
      rw [hstep] at hd
      match hbb : b.1 with
      | Option.none =>
        left
        rwa [hbb, flushFasta_none] at hd
      | Option.some hb =>
        by_cases hcond : hb ≠ "" ∧ b.2 ≠ []
        · by_cases hkey : h = hb
          · subst hkey
            rw [hbb, flushFasta_some_pos d h b.2 hcond, dictGet?_insert_self] at hd
            right
            exact ⟨b, List.mem_cons_self b bs, hbb, hcond.1, hcond.2, by
              injection hd⟩
          · left
            rwa [hbb, flushFasta_some_pos d hb b.2 hcond,
              dictGet?_insert_ne _ _ _ _ hkey] at hd
        · left
          rwa [hbb, flushFasta_some_neg d hb b.2 hcond] at hd
    · exact Or.inr ⟨b', List.mem_cons_of_mem b hb', hprop⟩

theorem foldl_flushStep_last (bs : List (Option String × List String))
    (d : List (String × String)) (h : String) (cs : List String)
    (hh : h ≠ "") (hcs : cs ≠ []) :
    dictGet? ((bs ++ [(Option.some h, cs)]).foldl flushStep d) h =
      Option.some (String.join cs) := by
  rw [List.foldl_append]
  simp only [List.foldl_cons, List.foldl_nil]
  have hstep : flushStep (bs.foldl flushStep d) (Option.some h, cs) =
      flushFasta (bs.foldl flushStep d) (Option.some h) cs := rfl
  rw [hstep, flushFasta_some_pos _ h cs (And.intro hh hcs)]
  exact dictGet?_insert_self _ _ _

/-! ## CIF parser: file-order characterisation of the collected rows -/

theorem cifSeqsStep_rows (seqs : List (String × List (String × String)))
    (sec : CifSection) (line : String) (eid : String) :
    (dictGet? (cifSeqsStep seqs sec line) eid).getD [] =
      (dictGet? seqs eid).getD [] ++ cifLineRowsCore eid sec line := by
  by_cases hsec : cifLineSection line sec = CifSection.sequence
  · by_cases htag : pyStartsWith line "_entity_poly_seq." = true
    · have hus : pyStartsWith line "_" = true :=
        pyStartsWith_underscore line "_entity_poly_seq." (by decide) htag
      have hrhs : cifLineRowsCore eid sec line = [] := by
        simp only [cifLineRowsCore]
        rw [if_neg]
        intro hcond
        rw [hcond.2.1] at hus
        exact Bool.false_ne_true hus
      rw [hrhs, List.append_nil]
      simp only [cifSeqsStep, if_pos hsec, if_pos htag]
      by_cases hc : dictContains seqs (splitDotField1 line) = true
      · rw [if_pos hc]
      · rw [if_neg hc]
        simp only [Bool.not_eq_true] at hc
        by_cases heid : eid = splitDotField1 line
        · rw [← heid] at hc
          rw [← heid, dictGet?_append_self seqs eid [] hc,
            dictGet?_none_of_not_contains seqs eid hc]
          rfl
        · rw [dictGet?_append_ne seqs (splitDotField1 line) eid [] heid]
    · by_cases hund : pyStartsWith line "_" = true
      · have hrhs : cifLineRowsCore eid sec line = [] := by
          simp only [cifLineRowsCore]
          rw [if_neg]
          intro hcond
          rw [hcond.2.1] at hund
          exact Bool.false_ne_true hund
        rw [hrhs, List.append_nil]
        simp only [cifSeqsStep, if_pos hsec, if_neg htag]
        rw [if_neg]
        intro hcond
        rw [hcond] at hund
        exact Bool.false_ne_true hund
      · simp only [Bool.not_eq_true] at hund
        by_cases hlen : 3 ≤ (pySplitWs line).length
        · by_cases heid : (pySplitWs line).getD 0 "" = eid
          · have hlhs : cifSeqsStep seqs sec line =
                if dictContains seqs eid = true then
                  dictModify seqs eid
                    (fun rows => rows ++ [((pySplitWs line).getD 1 "", (pySplitWs line).getD 2 "")])
                else seqs ++ [(eid, [((pySplitWs line).getD 1 "", (pySplitWs line).getD 2 "")])] := by
              simp only [cifSeqsStep, if_pos hsec, if_neg htag, if_pos hund, if_pos hlen, heid]
            have hrhs : cifLineRowsCore eid sec line =
                [((pySplitWs line).getD 1 "", (pySplitWs line).getD 2 "")] := by
              simp only [cifLineRowsCore]
              rw [if_pos ⟨hsec, hund, hlen, heid⟩]
            rw [hlhs, hrhs]
            by_cases hc : dictContains seqs eid = true
            · rw [if_pos hc]
              obtain ⟨rows, hrows⟩ := dictGet?_isSome_of_contains seqs eid hc
              rw [dictGet?_modify_self, hrows]
              rfl
            · rw [if_neg hc]
              simp only [Bool.not_eq_true] at hc
              rw [dictGet?_append_self seqs eid _ hc,
                dictGet?_none_of_not_contains seqs eid hc]
              rfl
          · have hlhs : cifSeqsStep seqs sec line =
                if dictContains seqs ((pySplitWs line).getD 0 "") = true then
                  dictModify seqs ((pySplitWs line).getD 0 "")
                    (fun rows => rows ++ [((pySplitWs line).getD 1 "", (pySplitWs line).getD 2 "")])
                else seqs ++ [(((pySplitWs line).getD 0 ""),
                    [((pySplitWs line).getD 1 "", (pySplitWs line).getD 2 "")])] := by
              simp only [cifSeqsStep, if_pos hsec, if_neg htag, if_pos hund, if_pos hlen]
            have hrhs : cifLineRowsCore eid sec line = [] := by
              simp only [cifLineRowsCore]
              rw [if_neg]
              intro hcond
              exact heid hcond.2.2.2
            rw [hlhs, hrhs, List.append_nil]
            have hne : eid ≠ (pySplitWs line).getD 0 "" := fun hx => heid hx.symm
            by_cases hc : dictContains seqs ((pySplitWs line).getD 0 "") = true
            · rw [if_pos hc, dictGet?_modify_ne seqs _ eid _ hne]
            · rw [if_neg hc, dictGet?_append_ne seqs _ eid _ hne]
        · have hlhs : cifSeqsStep seqs sec line = seqs := by
            simp only [cifSeqsStep, if_pos hsec, if_neg htag, if_pos hund, if_neg hlen]
          have hrhs : cifLineRowsCore eid sec line = [] := by
            simp only [cifLineRowsCore]
            rw [if_neg]
            intro hcond
            exact hlen hcond.2.2.1
          rw [hlhs, hrhs, List.append_nil]
  · have hlhs : cifSeqsStep seqs sec line = seqs := by
      simp only [cifSeqsStep, if_neg hsec]
    have hrhs : cifLineRowsCore eid sec line = [] := by
      simp only [cifLineRowsCore]
      rw [if_neg]
      intro hcond
      exact hsec hcond.1
    rw [hlhs, hrhs, List.append_nil]

theorem parseCifStep_sec (st : CifParseState) (raw : String) :
    (parseCifStep st raw).sec =
      if cifSkipLine (pyStrip raw) = true then st.sec
      else cifLineSection (pyStrip raw) st.sec := by
  by_cases h : cifSkipLine (pyStrip raw) = true
  · simp [parseCifStep, h]
  · simp [parseCifStep, h]

theorem parseCifStep_rows (st : CifParseState) (raw : String) (eid : String) :
    seqRowsOf (parseCifStep st raw).cd eid =
      seqRowsOf st.cd eid ++ cifLineRows eid st.sec raw := by
  by_cases h : cifSkipLine (pyStrip raw) = true
  · simp [parseCifStep, cifLineRows, h, seqRowsOf]
  · simp only [parseCifStep, if_neg h, cifLineRows, seqRowsOf]
    exact cifSeqsStep_rows st.cd.sequences st.sec (pyStrip raw) eid

theorem foldl_parseCifStep_rows (lines : List String) :
    ∀ (st : CifParseState) (eid : String),
      seqRowsOf (List.foldl parseCifStep st lines).cd eid =
        seqRowsOf st.cd eid ++ cifSpecRows eid st.sec lines := by
  induction lines with
  | nil =>
    intro st eid
    simp [cifSpecRows]
  | cons l ls ih =>
    intro st eid
    rw [List.foldl_cons]
    rw [ih (parseCifStep st l) eid]
    rw [parseCifStep_rows st l eid, parseCifStep_sec st l]
    simp only [cifSpecRows, cifLineRows]
    by_cases h : cifSkipLine (pyStrip l) = true
    · simp [h, List.append_assoc]
    · simp [h, List.append_assoc]

theorem getCifSequence_eq_rows (cd : CifData) (eid : String) :
    getCifSequence cd eid =
      String.join ((seqRowsOf cd eid).map (fun r => aaOneLetter r.2)) := by
  unfold getCifSequence seqRowsOf
  cases hdg : dictGet? cd.sequences eid with
  | none => rfl
  | some rows => rfl

/-! ## Matcher and annotated-writer lemmas -/

theorem dictContains_of_mem {α : Type} (d : List (String × α)) (p : String × α)
    (hp : p ∈ d) : dictContains d p.1 = true := by
  induction d with
  | nil => simp at hp
  | cons q rest ih =>
    rcases List.mem_cons.mp hp with h | h
    · subst h
      simp [dictContains]
    · simp [dictContains, ih h]

theorem findMatchingFasta_mem (s : String) (fd : List (String × String)) (h : String)
    (hf : findMatchingFasta s fd = Option.some h) : ∃ p ∈ fd, p.1 = h := by
  unfold findMatchingFasta at hf
  by_cases hs : s = ""
  · rw [if_pos hs] at hf
    exact absurd hf (by simp)
  · rw [if_neg hs] at hf
    cases h1 : fd.find? (fun p => p.2 == s) with
    | some p =>
      rw [h1] at hf
      injection hf with hh
      exact ⟨p, List.mem_of_find?_eq_some h1, hh⟩
    | none =>
      rw [h1] at hf
      cases h2 : fd.find? (fun p => pySubstr s p.2 || pySubstr p.2 s) with
      | some p =>
        rw [h2] at hf
        injection hf with hh
        exact ⟨p, List.mem_of_find?_eq_some h2, hh⟩
      | none =>
        rw [h2] at hf
        exact absurd hf (by simp)

theorem createAnnotated_fasta_nonempty (cd : CifData) (fd : List (String × String))
    (hfd : ∀ p ∈ fd, p.2 ≠ "") :
    ∀ a ∈ createAnnotated cd fd, ∀ s, a.fastaSequence = Option.some s → s ≠ "" := by
  intro a ha s hs
  unfold createAnnotated at ha
  rw [List.mem_flatMap] at ha
  obtain ⟨p, hp, hap⟩ := ha
  by_cases hpoly : isPolymerInfo p.2 = true
  · rw [if_pos hpoly] at hap
    cases hmf : findMatchingFasta (getCifSequence cd p.1) fd with
    | some hh =>
      simp only [hmf, List.mem_singleton] at hap
      subst hap
      injection hs with hs
      subst hs
      obtain ⟨q, hq, hq1⟩ := findMatchingFasta_mem _ _ _ hmf
      have hcont : dictContains fd hh = true := by
        have hm := dictContains_of_mem fd q hq
        rwa [hq1] at hm
      obtain ⟨v, hv⟩ := dictGet?_isSome_of_contains fd hh hcont
      rw [hv]
      simpa using hfd (hh, v) (dictGet?_mem fd hh v hv)
    | none =>
      simp only [hmf, List.mem_singleton] at hap
      subst hap
      exact Option.noConfusion hs
  · rw [if_neg hpoly] at hap
    simp at hap

theorem renderAnnotated_of_some (a : AnnotatedSeq) (s : String)
    (hA : a.fastaSequence = Option.some s) (hs : s ≠ "") :
    renderAnnotated a = annotatedHeaderLine a :: (wrapLines s ++ [""]) := by
  unfold renderAnnotated pyOrStr
  rw [hA]
  simp [hs]

theorem renderAnnotated_of_none (a : AnnotatedSeq)
    (hA : a.fastaSequence = Option.none) :
    renderAnnotated a = annotatedHeaderLine a :: (wrapLines a.cifSequence ++ [""]) := by
  unfold renderAnnotated pyOrStr
  rw [hA]

/-! ## Batch-loop lemmas -/

theorem flatMap_getD_nil {β : Type} (es : List β) (f : β → Option (List String))
    (h : es.any (fun e => (f e).isSome) = false) :
    es.flatMap (fun e => (f e).getD []) = [] := by
  induction es with
  | nil => rfl
  | cons e es ih =>
    simp only [List.any_cons, Bool.or_eq_false_iff] at h
    cases hf : f e with
    | some v =>
      rw [hf] at h
      simp at h
    | none =>
      simp only [List.flatMap_cons, hf, Option.getD_none, List.nil_append]
      exact ih h.2

theorem processPdbBatch_lines (o : PdbOracle) (ids : List String) :
    (processPdbBatch o ids).1 = ids.flatMap (pdbRenderedLines o) := by
  induction ids with
  | nil => rfl
  | cons pdbId ids ih =>
    cases hpe : o.polymerEntities pdbId with
    | none =>
      simp only [processPdbBatch, hpe, List.flatMap_cons, pdbRenderedLines, ih,
        List.nil_append]
    | some es =>
      cases es with
      | nil =>
        simp only [processPdbBatch, hpe, List.flatMap_cons, pdbRenderedLines,
          List.isEmpty_nil, if_true, List.flatMap_nil, List.nil_append, ih]
      | cons e es' =>
        by_cases hany : ((e :: es').any fun x => (renderPdbEntity o pdbId x).isSome) = true
        · simp only [processPdbBatch, hpe, List.isEmpty_cons, List.flatMap_cons,
            pdbRenderedLines, ih, hany, if_true, Bool.false_eq_true, if_false]
        · simp only [Bool.not_eq_true] at hany
          have hnil := flatMap_getD_nil (e :: es') (renderPdbEntity o pdbId) hany
          simp only [processPdbBatch, hpe, List.isEmpty_cons, hany, Bool.false_eq_true,
            if_false, List.flatMap_cons, pdbRenderedLines, ih]
          simp only [List.flatMap_cons] at hnil
          rw [hnil]
          simp

theorem processPdbBatch_success (o : PdbOracle) (ids : List String) :
    (processPdbBatch o ids).2.1.isEmpty = !(ids.any (pdbSucceeds o)) := by
  induction ids with
  | nil => rfl
  | cons pdbId ids ih =>
    cases hpe : o.polymerEntities pdbId with
    | none =>
      simp [processPdbBatch, hpe, pdbSucceeds, ih]
    | some es =>
      cases es with
      | nil =>
        simp [processPdbBatch, hpe, pdbSucceeds, ih]
      | cons e es' =>
        by_cases hany : ((e :: es').any fun x => (renderPdbEntity o pdbId x).isSome) = true
        · simp [processPdbBatch, hpe, pdbSucceeds, hany]
        · simp only [Bool.not_eq_true] at hany
          simp [processPdbBatch, hpe, pdbSucceeds, hany, ih]

/-! ## Retry-loop lemma -/

theorem fetchAttempts_all_fail (outcome : Nat → AttemptOutcome)
    (hf : ∀ i, outcome i = AttemptOutcome.reqError) :
    ∀ (r i : Nat), fetchAttempts outcome i r = (Option.none, failTrace r) := by
  intro r
  induction r with
  | zero => intro i; rfl
  | succ r ih =>
    intro i
    cases r with
    | zero =>
      show fetchAttempts outcome i (0 + 1) = _
      rw [fetchAttempts, hf i]
      rfl
    | succ r' =>
      show fetchAttempts outcome i ((r' + 1) + 1) = _
      rw [fetchAttempts, hf i]
      simp only []
      rw [if_neg (by omega : ¬(r' + 1 = 0))]
      rw [ih (i + 1)]
      rfl

/-! ## Claim theorems -/

/-- C6: `validate_pdb_id` accepts a token if and only if it is exactly 4
characters long and every character is alphanumeric; the embedding is a
pure function of the input string. -/
theorem validate_pdb_id_iff (s : String) :
    validatePdbId s = true ↔ (s.length = 4 ∧ ∀ c ∈ s.data, c.isAlphanum = true) := by
  unfold validatePdbId pyIsAlnum
  by_cases hc : s.data = [] ∨ s.data.length ≠ 4
  · rw [if_pos hc]
    constructor
    · intro h
      exact absurd h (by simp)
    · rintro ⟨h4, -⟩
      exfalso
      have hlen : s.data.length = 4 := h4
      rcases hc with h | h
      · rw [h] at hlen
        exact absurd hlen (by simp)
      · exact h hlen
  · rw [if_neg hc]
    push_neg at hc
    obtain ⟨hne, h4⟩ := hc
    constructor
    · intro h
      simp only [Bool.and_eq_true] at h
      exact ⟨h4, fun c hcm => List.all_eq_true.mp h.2 c hcm⟩
    · intro ⟨_, hall⟩
      simp only [Bool.and_eq_true]
      refine ⟨?_, List.all_eq_true.mpr hall⟩
      cases hd : s.data with
      | nil => exact absurd hd hne
      | cons a l => rfl

/-- C5: with `max_retries = 3` and a valid identifier, when every attempt
raises a transport/HTTP error, `fetch_pdb_info` makes exactly 3 attempts,
sleeps once between consecutive attempts (and not after the last), and
returns `None`. -/
theorem fetch_pdb_info_three_failures (pdbId : String) (outcome : Nat → AttemptOutcome)
    (hv : validatePdbId pdbId = true) (hf : ∀ i, outcome i = AttemptOutcome.reqError) :
    fetchPdbInfo pdbId 3 outcome =
      (Option.none, [FetchEvent.attempt, FetchEvent.sleep, FetchEvent.attempt,
        FetchEvent.sleep, FetchEvent.attempt]) := by
  unfold fetchPdbInfo
  rw [if_neg (by simp [hv])]
  rw [fetchAttempts_all_fail outcome hf 3 0]
  rfl

/-- C5 witness: a concrete all-failing oracle at `max_retries = 3`. -/
theorem fetch_pdb_info_three_failures_witness :
    fetchPdbInfo "1ABC" 3 (fun _ => AttemptOutcome.reqError) =
      (Option.none, [FetchEvent.attempt, FetchEvent.sleep, FetchEvent.attempt,
        FetchEvent.sleep, FetchEvent.attempt]) :=
  fetch_pdb_info_three_failures "1ABC" (fun _ => AttemptOutcome.reqError)
    (by decide) (fun _ => rfl)

/-- C9: with `max_retries = 0` and a valid identifier, the retry loop body
never runs: `fetch_pdb_info` returns `None` with no attempt and no sleep
(Python's `for attempt in range(0)` falls through to the implicit
`return None`). -/
theorem fetch_pdb_info_zero_retries (pdbId : String) (outcome : Nat → AttemptOutcome)
    (hv : validatePdbId pdbId = true) :
    fetchPdbInfo pdbId 0 outcome = (Option.none, []) := by
  unfold fetchPdbInfo
  rw [if_neg (by simp [hv])]
  rfl

/-- C9 witness: even an oracle that would succeed immediately is never
consulted when `max_retries = 0`. -/
theorem fetch_pdb_info_zero_retries_witness :
    fetchPdbInfo "2DEF" 0 (fun _ => AttemptOutcome.success ["entry"]) =
      (Option.none, []) :=
  fetch_pdb_info_zero_retries "2DEF" (fun _ => AttemptOutcome.success ["entry"]) (by decide)

/-- C1 counterexample: a CIF whose `_entity_poly_seq` rows carry positions
2 then 1 yields `"GA"` (file order), not the position-sorted `"AG"` the
claim requires. -/
theorem cif_sequence_not_sorted_counterexample :
    getCifSequence (parseCifLines cifOutOfOrderLines) "1" = "GA" ∧
    getCifSequence (parseCifLines cifOutOfOrderLines) "1" ≠ "AG" :=
  ⟨by decide, by decide⟩

/-- C1 (amended): CIF parsing followed by sequence extraction yields, for
every entity identifier, the concatenation of the residues' one-letter
codes in the order the (position, residue) pairs appear in the file — no
sorting by numeric position is performed. -/
theorem cif_sequence_follows_file_order (lines : List String) (eid : String) :
    getCifSequence (parseCifLines lines) eid =
      String.join ((cifSpecRows eid CifSection.nosection lines).map
        (fun r => aaOneLetter r.2)) := by
  rw [getCifSequence_eq_rows]
  have h := foldl_parseCifStep_rows lines initCifState eid
  have hcast : seqRowsOf (parseCifLines lines) eid =
      seqRowsOf (List.foldl parseCifStep initCifState lines).cd eid := rfl
  rw [hcast, h]
  rfl

/-- C8: the FASTA parser creates no entry for a header followed by no
non-empty sequence line before the next header or end of input (every
entry comes from a record with a non-empty body), and the final record of
the input is flushed into the returned mapping. -/
theorem fasta_parser_empty_header_and_final_record (lines : List String) :
    (∀ h v, dictGet? (parseFastaLines lines) h = Option.some v →
        ∃ b ∈ fastaBlocks lines,
          b.1 = Option.some h ∧ h ≠ "" ∧ b.2 ≠ [] ∧ String.join b.2 = v) ∧
    (∀ h cs, (fastaBlocks lines).getLast? = Option.some (Option.some h, cs) →
        h ≠ "" → cs ≠ [] →
        dictGet? (parseFastaLines lines) h = Option.some (String.join cs)) := by
  constructor
  · intro h v hv
    rw [show parseFastaLines lines = parseFastaAux [] Option.none [] lines from rfl,
      parseFastaAux_eq_foldl_blocks lines [] Option.none []] at hv
    rcases foldl_flushStep_get _ _ _ _ hv with hd | hex
    · exact absurd hd (by simp [dictGet?])
    · exact hex
  · intro h cs hlast hh hcs
    obtain ⟨bs, hbs⟩ := getLast?_concat_form _ _ hlast
    rw [show parseFastaLines lines = parseFastaAux [] Option.none [] lines from rfl,
      parseFastaAux_eq_foldl_blocks lines [] Option.none [],
      show fastaBlocksAux Option.none [] lines = fastaBlocks lines from rfl, hbs]
    exact foldl_flushStep_last bs [] h cs hh hcs

/-- C8 witness: a header with no body yields no entry, and the final
record `>last` with body lines `AB`, `CD` is flushed as `"ABCD"`. -/
theorem fasta_parser_final_record_witness :
    dictGet? (parseFastaLines [">empty", "", ">last", "AB", "CD"]) "last" =
      Option.some "ABCD" := by
  have h := (fasta_parser_empty_header_and_final_record
      [">empty", "", ">last", "AB", "CD"]).2 "last" ["AB", "CD"]
      (by decide) (by decide) (by decide)
  exact h.trans (by decide)

/-- C3 counterexample: the matcher does not select by the claimed
`0.6 × identity + 0.4 × coverage` score.  On chain `"ABCDE"` it returns
`"h2"` (whose record merely contains the chain as a substring, spec score
`0.4`) although `"h1"` has the strictly larger spec score `0.8`; its
result also carries no score at all — only the header. -/
theorem matcher_not_driven_by_similarity_counterexample :
    findMatchingFasta "ABCDE" [("h1", "ABCDF"), ("h2", "ZZABCDEZZ")] = Option.some "h2" ∧
    specCombinedSimilarity "ABCDE" "ABCDF" >
      specCombinedSimilarity "ABCDE" "ZZABCDEZZ" := by
  constructor
  · decide
  · have i1 : specIdentityCount "ABCDE".data "ABCDF".data = 4 := by decide
    have l1 : specLcsLen "ABCDE".data "ABCDF".data = 4 := by decide
    have i2 : specIdentityCount "ABCDE".data "ZZABCDEZZ".data = 0 := by decide
    have l2 : specLcsLen "ABCDE".data "ZZABCDEZZ".data = 5 := by decide
    have d1 : ("ABCDE" : String).data.length = 5 := by decide
    have d2 : ("ABCDF" : String).data.length = 5 := by decide
    have d3 : ("ZZABCDEZZ" : String).data.length = 9 := by decide
    unfold specCombinedSimilarity specIdentity specCoverage
    rw [i1, l1, i2, l2, d1, d2, d3]
    norm_num [min_def]

/-- C3 (amended): for candidates `{"h1": "AAAAA", "h2": "ABCDE"}` and
chain `"ABCDE"`, the matcher selects `"h2"` — found by the exact-equality
pass, which precedes substring containment — and returns only the header:
no similarity score is computed or reported. -/
theorem matcher_selects_exact_match_header :
    findMatchingFasta "ABCDE" [("h1", "AAAAA"), ("h2", "ABCDE")] = Option.some "h2" := by
  decide

/-- C7 counterexample: writing the mapping
`{"seq1": "ABCDEFGH", "seq2": "MNOP"}` with the program's FASTA writer and
re-parsing does not reproduce the mapping: the writer rewrites each
header as `Entity_<id> | <type> | <title>`. -/
theorem fasta_roundtrip_headers_rewritten_counterexample :
    parseFastaLines (writeAnnotatedSequences (annotatedOfMapping
        [("seq1", "ABCDEFGH"), ("seq2", "MNOP")])) ≠
      [("seq1", "ABCDEFGH"), ("seq2", "MNOP")] := by
  decide

/-- C7 (amended): re-parsing the written text reproduces the two
sequences unchanged and in order, but under the writer's rewritten
headers `Entity_<id> | <type> | <title>`; the original header-to-sequence
mapping is recovered only up to this header transformation. -/
theorem fasta_roundtrip_sequences_preserved :
    parseFastaLines (writeAnnotatedSequences (annotatedOfMapping
        [("seq1", "ABCDEFGH"), ("seq2", "MNOP")])) =
      [("Entity_seq1 | polymer | Unknown", "ABCDEFGH"),
       ("Entity_seq2 | polymer | Unknown", "MNOP")] := by
  decide

/-- C4 counterexample: an empty CIF file is not reported as a parse
failure: with a parsable FASTA file the operation reports success and
opens/creates the output file, writing nothing into it. -/
theorem empty_cif_annotation_success_counterexample :
    createAnnotatedSequence "model.cif" "seqs.fasta" "annotated_sequence.fasta"
        [] [">h", "AB"] =
      (true, "Successfully created annotated sequence file: annotated_sequence.fasta",
        Option.some []) := by
  decide

/-- C4 (amended): a CIF input yielding no annotatable chains is not
reported as a parse failure — the parser's three-key result dict is
always truthy, so the caller's guard never fires.  Whenever the FASTA
side parses to a non-empty mapping, the operation reports success and
writes an output file with no entries.  (An empty FASTA mapping is still
reported as a FASTA parse failure with no file written.) -/
theorem no_chain_cif_still_succeeds (cifFile fastaFile outputFile : String)
    (cifLines fastaLines : List String)
    (hnochains : createAnnotated (parseCifLines cifLines) (parseFastaLines fastaLines) = [])
    (hfasta : parseFastaLines fastaLines ≠ []) :
    createAnnotatedSequence cifFile fastaFile outputFile cifLines fastaLines =
      (true, "Successfully created annotated sequence file: " ++ outputFile,
        Option.some []) := by
  simp only [createAnnotatedSequence]
  rw [if_neg (by simp [cifDataFalsy])]
  have hne : (parseFastaLines fastaLines).isEmpty = false := by
    cases hq : parseFastaLines fastaLines with
    | nil => exact absurd hq hfasta
    | cons p rest => rfl
  rw [if_neg (by simp [hne])]
  rw [hnochains]
  rfl

/-- C4 witness: a comment-only CIF with a parsable FASTA. -/
theorem no_chain_cif_still_succeeds_witness :
    createAnnotatedSequence "model.cif" "seqs.fasta" "out.fasta" ["# empty"] [">h", "AB"] =
      (true, "Successfully created annotated sequence file: out.fasta",
        Option.some []) :=
  no_chain_cif_still_succeeds "model.cif" "seqs.fasta" "out.fasta" ["# empty"] [">h", "AB"]
    (by decide) (by decide)

/-- C2 counterexample: one identifier with an invalid format aborts the
whole batch before any sibling is processed — no output file is opened
and the oracle-backed sibling `1ABC` (which succeeds when submitted
alone) is never attempted. -/
theorem invalid_id_aborts_batch_counterexample :
    buildFastaFromMultiplePdbs goodOracle ["1ABC", "BAD!"] "combined_protein.fasta" =
      (false, "Invalid PDB ID(s): BAD!", Option.none) ∧
    buildFastaFromMultiplePdbs goodOracle ["1ABC"] "combined_protein.fasta" =
      (true,
        "Successfully created FASTA file: combined_protein.fasta | Successfully processed: 1ABC",
        Option.some [">pdb|1ABC|entity_1|polymer|Protein X", "MKV", ""]) :=
  ⟨by decide, by decide⟩

/-- C2 (amended): provided every identifier passes format validation,
the identifiers are processed independently: the written output is the
concatenation of per-identifier outputs (each a function of the oracle
and that identifier alone, so a fetch failure or absence of sequences on
one identifier does not change the others' output) and the operation
succeeds exactly when at least one identifier yields sequences.  An
identifier failing format validation, however, aborts the whole batch
up front. -/
theorem batch_processes_valid_ids_independently (o : PdbOracle) (outputFile : String)
    (ids : List String) (h1 : ids ≠ []) (h2 : ∀ i ∈ ids, validatePdbId i = true) :
    (buildFastaFromMultiplePdbs o ids outputFile).1 = ids.any (pdbSucceeds o) ∧
    (buildFastaFromMultiplePdbs o ids outputFile).2.2 =
      Option.some (ids.flatMap (pdbRenderedLines o)) := by
  have hni : ids.isEmpty = false := by
    cases ids with
    | nil => exact absurd rfl h1
    | cons a l => rfl
  have hfil : ids.filter (fun i => validatePdbId i = false) = [] := by
    apply filter_eq_nil_of_false
    intro a ha
    simp [h2 a ha]
  simp only [buildFastaFromMultiplePdbs, hni, Bool.false_eq_true, if_false, hfil,
    List.isEmpty_nil]
  rw [if_neg (by simp)]
  constructor
  · show (!(processPdbBatch o ids).2.1.isEmpty) = ids.any (pdbSucceeds o)
    rw [processPdbBatch_success]
    exact Bool.not_not _
  · show Option.some (processPdbBatch o ids).1 = _
    rw [processPdbBatch_lines]

/-- C2 witness: a batch whose first identifier fails to fetch while the
second succeeds — the batch still succeeds. -/
theorem batch_processes_valid_ids_independently_witness :
    (buildFastaFromMultiplePdbs goodOracle ["2DEF", "1ABC"] "combined_protein.fasta").1 =
      true := by
  have h := (batch_processes_valid_ids_independently goodOracle "combined_protein.fasta"
    ["2DEF", "1ABC"] (by decide) (by decide)).1
  exact h.trans (by decide)

/-- C10: in the annotated-sequence output built from CIF data and FASTA
records with non-empty sequences, every entry's block starts with its
header line (written even when no sequence is available), the body
written for a matched entity is the matched FASTA record's sequence —
not the CIF-derived one — and the CIF-derived sequence is written only
for entities with no match. -/
theorem annotated_output_prefers_matched_fasta (cd : CifData)
    (fd : List (String × String)) (hfd : ∀ p ∈ fd, p.2 ≠ "") :
    writeAnnotatedSequences (createAnnotated cd fd) =
      (createAnnotated cd fd).flatMap (fun a =>
        annotatedHeaderLine a ::
          (wrapLines (match a.fastaSequence with
            | Option.some s => s
            | Option.none => a.cifSequence) ++ [""])) := by
  unfold writeAnnotatedSequences
  apply flatMap_congr_mem
  intro a ha
  cases hA : a.fastaSequence with
  | none =>
    rw [renderAnnotated_of_none a hA]
  | some s =>
    have hs := createAnnotated_fasta_nonempty cd fd hfd a ha s hA
    rw [renderAnnotated_of_some a s hA hs]

/-- C10 witness: one matched polymer entity — the output block is the
header, the matched FASTA sequence and a blank line. -/
theorem annotated_output_prefers_matched_fasta_witness :
    writeAnnotatedSequences (createAnnotated cdWitness fdWitness) =
      [">Entity_type | polymer | Unknown", "A", ""] := by
  have h := annotated_output_prefers_matched_fasta cdWitness fdWitness (by decide)
  exact h.trans (by decide)
